import Mathlib

/-!
Verification of the tier-list partition engine in src/App.tsx.

The React component state is embedded shallowly:
  - `rows : List TierRowData` is the `rows` state (the Tier Registry);
  - `items : Store` is the `items` state (the Partition Store), a JavaScript
    object modelled as an association list in key-insertion order;
  - JavaScript array operations (`findIndex`, `splice`, dnd-kit `arrayMove`)
    are modelled with their exact index-clamping semantics;
  - operations that would throw a TypeError at runtime (spreading or calling
    a method of `undefined`), or that would insert `undefined` into a typed
    array, return `none`.
-/

set_option linter.unusedVariables false

set_option linter.unnecessarySeqFocus false

/-- An image item: `{id, src}` from types.ts (`src` is a data-URI string). -/
structure TierImage where
  id : String
  src : String
deriving DecidableEq, Repr

/-- A tier definition: `{id, label, color}` from types.ts. -/
structure TierRowData where
  id : String
  label : String
  color : String
deriving DecidableEq, Repr

/-- constants.ts: `export const UNRANKED_ID = 'unranked'`. -/
def UNRANKED_ID : String := "unranked"

namespace ItemTypes

/-- constants.ts: `ItemTypes.ROW`. -/
def ROW : String := "row"

/-- constants.ts: `ItemTypes.IMAGE`. -/
def IMAGE : String := "image"

end ItemTypes

/-- The Partition Store: the `items` React state, a JavaScript object
`Record<string, TierImage[]>` modelled as an association list whose order
is the object's key-insertion order. -/
abbrev Store := List (String × List TierImage)

/-- JavaScript property read `obj[k]`: the value at the key, or `none`
(i.e. `undefined`) when the key is absent. -/
def lookup : Store → String → Option (List TierImage)
  | [], _ => none
  | (k₁, v₁) :: t, k => if k₁ = k then some v₁ else lookup t k

/-- JavaScript property write `{...obj, [k]: v}` / `obj[k] = v`: replaces the
value at an existing key in place (key order kept), otherwise appends the
new key at the end. -/
def setVal : Store → String → List TierImage → Store
  | [], k, v => [(k, v)]
  | (k₁, v₁) :: t, k, v => if k₁ = k then (k, v) :: t else (k₁, v₁) :: setVal t k v

/-- JavaScript `delete obj[k]`: removes the entry at the key (objects hold
each key at most once, so removing the first occurrence is exact). -/
def eraseKey : Store → String → Store
  | [], _ => []
  | (k₁, v₁) :: t, k => if k₁ = k then t else (k₁, v₁) :: eraseKey t k

/-- The component state of App.tsx: the `rows` and `items` useState pair. -/
structure AppState where
  rows : List TierRowData
  items : Store
deriving DecidableEq, Repr

/-- App.tsx `DEFAULT_STATE.rows`. -/
def DEFAULT_ROWS : List TierRowData :=
  [⟨"S", "S", "#ff7f7f"⟩, ⟨"A", "A", "#ffbf7f"⟩, ⟨"B", "B", "#ffff7f"⟩,
   ⟨"C", "C", "#7fff7f"⟩, ⟨"D", "D", "#7fbfff"⟩]

/-- App.tsx `DEFAULT_STATE.items`: one empty sequence per default row, then
the UNRANKED key (spread order of the object literal). -/
def DEFAULT_ITEMS : Store :=
  [("S", []), ("A", []), ("B", []), ("C", []), ("D", []), (UNRANKED_ID, [])]

/-- The initial component state (structuredClone of DEFAULT_STATE). -/
def initState : AppState := ⟨DEFAULT_ROWS, DEFAULT_ITEMS⟩

/-- JavaScript `Array.prototype.findIndex` restricted to its found index:
`some n` for the first index satisfying the predicate, else `none`. -/
def jsFindIndexNat (p : α → Bool) : List α → Option Nat
  | [] => none
  | a :: t => if p a then some 0 else (jsFindIndexNat p t).map (· + 1)

/-- JavaScript `Array.prototype.findIndex`: first matching index, or -1. -/
def jsFindIndex (p : α → Bool) (l : List α) : Int :=
  match jsFindIndexNat p l with
  | some n => (n : Int)
  | none => -1

/-- JavaScript `splice` start-argument coercion: a negative start counts from
the end (clamped at 0), a non-negative start is clamped to the length. -/
def clampStart (i : Int) (len : Nat) : Nat :=
  if i < 0 then (max ((len : Int) + i) 0).toNat else min i.toNat len

/-- JavaScript `arr.splice(i, 1)`: the removed element (if any) and the
remaining array. -/
def spliceRemoveOne (l : List α) (i : Int) : Option α × List α :=
  (l[clampStart i l.length]?,
   l.take (clampStart i l.length) ++ l.drop (clampStart i l.length + 1))

/-- JavaScript `arr.splice(start, 0, x)`: insert `x` at the clamped start. -/
def insertAtClamped (l : List α) (start : Int) (x : α) : List α :=
  l.take (clampStart start l.length) ++ x :: l.drop (clampStart start l.length)

/-- dnd-kit `arrayMove(array, from, to)`: remove the element at `from`, then
insert it at `to` (the `to < 0` case is resolved against the original
length, exactly as in the library source). When the removal yields no
element (empty array or out-of-range index on an empty slice) JavaScript
would insert `undefined` into the typed array; we model that corrupting
outcome as `none`. -/
def jsArrayMove (l : List α) (i j : Int) : Option (List α) :=
  match spliceRemoveOne l i with
  | (none, _) => none
  | (some x, l₁) => some (insertAtClamped l₁ (if j < 0 then (l.length : Int) + j else j) x)

/-- App.tsx `handleAddRow`, with the generated `new-row-${uuid}` id passed
explicitly: appends the new tier and creates its empty container. -/
def handleAddRow (newId : String) (s : AppState) : AppState :=
  { rows := s.rows ++ [⟨newId, "New Tier", "#4a4a4a"⟩],
    items := setVal s.items newId [] }

/-- App.tsx `handleUpdateRow`: replace label and color of the matching row. -/
def handleUpdateRow (id newLabel newColor : String) (s : AppState) : AppState :=
  { s with rows := s.rows.map (fun r =>
      if r.id = id then { r with label := newLabel, color := newColor } else r) }

/-- App.tsx `handleDeleteRow`: filter the row out of `rows`; read
`itemsToMove = newItems[id] || []`, append it to the UNRANKED sequence, then
`delete newItems[id]`. Spreading `newItems[UNRANKED_ID]` throws a TypeError
when the UNRANKED key is absent; that failure is `none`. -/
def handleDeleteRow (id : String) (s : AppState) : Option AppState :=
  match lookup s.items UNRANKED_ID with
  | none => none
  | some unranked =>
    let itemsToMove := (lookup s.items id).getD []
    some { rows := s.rows.filter (fun r => r.id ≠ id),
           items := eraseKey (setVal s.items UNRANKED_ID (unranked ++ itemsToMove)) id }

/-- App.tsx `handleImageUpload`, with the freshly built `TierImage`s passed
explicitly: appends them to the UNRANKED sequence. Spreading
`prev[UNRANKED_ID]` throws a TypeError when the key is absent (`none`). -/
def handleImageUpload (newImages : List TierImage) (s : AppState) : Option AppState :=
  match lookup s.items UNRANKED_ID with
  | none => none
  | some unranked =>
    some { s with items := setVal s.items UNRANKED_ID (unranked ++ newImages) }

/-- The `for (const containerId in items)` scan of App.tsx `findContainer`:
first container whose sequence holds an item with the given id. -/
def scanContainers : Store → String → Option String
  | [], _ => none
  | (k, v) :: t, id => if v.any (fun it => it.id = id) then some k else scanContainers t id

/-- App.tsx `findContainer`: a container id (UNRANKED or a current row id)
resolves to itself; otherwise the store is scanned for an item with that
id; `none` when unknown. -/
def findContainer (rows : List TierRowData) (items : Store) (id : String) : Option String :=
  if id = UNRANKED_ID ∨ rows.any (fun r => r.id = id) then some id
  else scanContainers items id

/-- The drop target of a dnd-kit DragEndEvent: `over.id` and
`over.data.current?.type`. -/
structure DragOver where
  id : String
  dataType : Option String
deriving DecidableEq, Repr

/-- A dnd-kit DragEndEvent as consumed by App.tsx `handleDragEnd`:
`active.id`, `active.data.current?.type`, and the optional `over`. -/
structure DragEndEvent where
  activeId : String
  activeType : Option String
  over : Option DragOver
deriving DecidableEq, Repr

/-- The same-container arm of the image branch of App.tsx `handleDragEnd`,
with the resolved `activeContainer` passed in: guarded by the truthiness of
`over.id`, it repositions `activeId` to the index of `overId` inside the one
container with `arrayMove` when both are found at distinct indices.
Reading `.findIndex` off `items[activeContainer]` when that key is absent
throws (`none`). -/
def dragWithin (activeId overId : String) (ac : String) (s : AppState) : Option AppState :=
  if overId ≠ "" then
    match lookup s.items ac with
    | none => none
    | some l =>
      if jsFindIndex (fun it => it.id = activeId) l ≠ -1 ∧
          jsFindIndex (fun it => it.id = overId) l ≠ -1 ∧
          jsFindIndex (fun it => it.id = activeId) l ≠ jsFindIndex (fun it => it.id = overId) l then
        match jsArrayMove l (jsFindIndex (fun it => it.id = activeId) l)
            (jsFindIndex (fun it => it.id = overId) l) with
        | some l₂ => some { s with items := setVal s.items ac l₂ }
        | none => none
      else some s
  else some s

/-- The cross-container arm of the image branch of App.tsx `handleDragEnd`:
splice `activeId` out of the source, then either push it onto the
destination (when `overId` re-resolves to itself, i.e. is a container) or
splice it in just before `overId`'s index (push when not found). The
`overIsContainer` re-resolution runs against the store with the source
already spliced, exactly as in the source (the first `splice` mutates the
array shared with the `items` closure). Property reads off an absent key,
or moving an `undefined` element out of an empty source, are `none`. -/
def dragAcross (activeId overId : String) (ac oc : String) (s : AppState) : Option AppState :=
  match lookup s.items ac with
  | none => none
  | some src =>
    match spliceRemoveOne src (jsFindIndex (fun it => it.id = activeId) src) with
    | (none, _) => none
    | (some movedItem, src₂) =>
      match lookup (setVal s.items ac src₂) oc with
      | none => none
      | some dst =>
        if findContainer s.rows (setVal s.items ac src₂) overId = some overId then
          some { s with items := setVal (setVal s.items ac src₂) oc (dst ++ [movedItem]) }
        else
          if jsFindIndex (fun it => it.id = overId) dst ≠ -1 then
            some { s with items := (setVal (setVal s.items ac src₂) oc
                (insertAtClamped dst (jsFindIndex (fun it => it.id = overId) dst) movedItem)) }
          else
            some { s with items := setVal (setVal s.items ac src₂) oc (dst ++ [movedItem]) }

/-- The image (`ItemTypes.IMAGE`) branch of App.tsx `handleDragEnd`,
dispatching on the two resolved containers. The source's condition
`!activeContainer || !overContainer || activeContainer === overContainer`
followed by the guard `activeContainer && over.id` is decomposed case by
case: an unresolved active container is a no-op; an unresolved over
container or equal containers take the same-container arm; distinct
resolved containers take the cross-container arm. -/
def dragImage (activeId overId : String) (s : AppState) : Option AppState :=
  match findContainer s.rows s.items activeId, findContainer s.rows s.items overId with
  | none, _ => some s
  | some ac, none => dragWithin activeId overId ac s
  | some ac, some oc =>
    if ac = oc then dragWithin activeId overId ac s
    else dragAcross activeId overId ac oc s

/-- The dispatch of App.tsx `handleDragEnd` once a drop target exists: two
ROW kinds reorder the registry with dnd-kit `arrayMove`; an IMAGE active id
goes to the image branch; any other kind combination is a no-op. -/
def dragEndOver (activeId : String) (activeType : Option String) (over : DragOver)
    (s : AppState) : Option AppState :=
  if activeType = some ItemTypes.ROW ∧ over.dataType = some ItemTypes.ROW then
    if activeId ≠ over.id then
      match jsArrayMove s.rows (jsFindIndex (fun r => r.id = activeId) s.rows)
          (jsFindIndex (fun r => r.id = over.id) s.rows) with
      | some rows₂ => some { s with rows := rows₂ }
      | none => none
    else some s
  else if activeType = some ItemTypes.IMAGE then
    dragImage activeId over.id s
  else some s

/-- App.tsx `handleDragEnd` (the `setActiveId(null)` bookkeeping carries no
store or registry content and is omitted): no `over` is a no-op, otherwise
the gesture is dispatched on the kinds of the dragged and drop entities. -/
def handleDragEnd (e : DragEndEvent) (s : AppState) : Option AppState :=
  match e.over with
  | none => some s
  | some over => dragEndOver e.activeId e.activeType over s

/-- The JSX render of a container's sequence: `items[row.id] || []` and
`items[UNRANKED_ID] || []`. -/
def renderedItems (s : AppState) (containerId : String) : List TierImage :=
  (lookup s.items containerId).getD []

/-!
Snapshot Codec. `JSON.stringify`/`JSON.parse` round-trip is the identity on
well-formed data, so the codec is modelled on JSON trees directly.
-/

/-- A parsed JSON value (numbers as integers suffice for this development). -/
inductive Json where
  | null : Json
  | bool (b : Bool) : Json
  | num (n : Int) : Json
  | str (s : String) : Json
  | arr (l : List Json) : Json
  | obj (l : List (String × Json)) : Json
deriving Repr

/-- JavaScript truthiness of a parsed JSON value: `null`, `false`, `0` and
the empty string are falsy; arrays and objects are always truthy. -/
def jsTruthy : Json → Bool
  | Json.null => false
  | Json.bool b => b
  | Json.num n => n ≠ 0
  | Json.str s => s ≠ ""
  | Json.arr _ => true
  | Json.obj _ => true

/-- JavaScript property access `v.k` on a parsed value: a field of an
object, otherwise `undefined` (property access on `null` throws, but in
`handleUpload` that TypeError lands in the same catch as the falsy check,
so both are the same failure outcome). -/
def jsGet : Json → String → Option Json
  | Json.obj l, k => l.lookup k
  | _, _ => none

def KEY_SAVED_ROWS : String := "savedRows"

def KEY_SAVED_ITEMS : String := "savedItems"

/-- Truthiness of a field of the parsed document: absent (`undefined`) is
falsy. -/
def fieldTruthy (doc : Json) (k : String) : Bool :=
  match jsGet doc k with
  | some v => jsTruthy v
  | none => false

/-- The validation of App.tsx `handleUpload` (and of the localStorage load
effect): `data && data.savedRows && data.savedItems`. On success the two
field values are installed as the new state verbatim; any falsy check or
exception is the failure outcome `none`. No shape validation happens. -/
def decodeSnapshot (doc : Json) : Option (Json × Json) :=
  if jsTruthy doc then
    match jsGet doc KEY_SAVED_ROWS, jsGet doc KEY_SAVED_ITEMS with
    | some r, some i => if jsTruthy r ∧ jsTruthy i then some (r, i) else none
    | _, _ => none
  else none

/-- App.tsx `handleUpload` at the persistence boundary, the live state taken
in its serialized form: on decode success `setRows`/`setItems` install the
two parsed fields; on failure (the else/catch paths) neither setter runs. -/
def applyUpload (doc : Json) (current : Json × Json) : Json × Json :=
  match decodeSnapshot doc with
  | some p => p
  | none => current

/-- Serialization of one tier by `JSON.stringify` (object key order is the
creation order of the literal in App.tsx). -/
def encodeTier (t : TierRowData) : Json :=
  Json.obj [("id", Json.str t.id), ("label", Json.str t.label), ("color", Json.str t.color)]

/-- Serialization of one image item by `JSON.stringify`. -/
def encodeImage (it : TierImage) : Json :=
  Json.obj [("id", Json.str it.id), ("src", Json.str it.src)]

/-- App.tsx `handleSave`/`handleDownload` payload:
`JSON.stringify({savedRows: rows, savedItems: items})` as a JSON tree. -/
def encodeSnapshot (rows : List TierRowData) (items : Store) : Json :=
  Json.obj [(KEY_SAVED_ROWS, Json.arr (rows.map encodeTier)),
            (KEY_SAVED_ITEMS, Json.obj (items.map (fun kv => (kv.1, Json.arr (kv.2.map encodeImage)))))]

def KEY_ID : String := "id"

def KEY_LABEL : String := "label"

def KEY_COLOR : String := "color"

def KEY_SRC : String := "src"

/-- Reading one parsed tier back into typed state (the shape in which the
rest of App.tsx consumes `rows` entries: `.id`, `.label`, `.color`). -/
def decodeTier (j : Json) : Option TierRowData :=
  match jsGet j KEY_ID, jsGet j KEY_LABEL, jsGet j KEY_COLOR with
  | some (Json.str i), some (Json.str lb), some (Json.str c) => some ⟨i, lb, c⟩
  | _, _, _ => none

/-- Reading one parsed image item back into typed state. -/
def decodeImage (j : Json) : Option TierImage :=
  match jsGet j KEY_ID, jsGet j KEY_SRC with
  | some (Json.str i), some (Json.str sr) => some ⟨i, sr⟩
  | _, _ => none

def decodeTierList : List Json → Option (List TierRowData)
  | [] => some []
  | j :: t =>
    match decodeTier j, decodeTierList t with
    | some r, some rest => some (r :: rest)
    | _, _ => none

/-- Reading the parsed `savedRows` field as the typed registry. -/
def decodeRows : Json → Option (List TierRowData)
  | Json.arr l => decodeTierList l
  | _ => none

def decodeImageList : List Json → Option (List TierImage)
  | [] => some []
  | j :: t =>
    match decodeImage j, decodeImageList t with
    | some it, some rest => some (it :: rest)
    | _, _ => none

/-- Reading one container value: it must be a sequence of image items. -/
def decodeImagesField : Json → Option (List TierImage)
  | Json.arr l => decodeImageList l
  | _ => none

def decodeStoreEntries : List (String × Json) → Option Store
  | [] => some []
  | (k, v) :: t =>
    match decodeImagesField v, decodeStoreEntries t with
    | some imgs, some rest => some ((k, imgs) :: rest)
    | _, _ => none

/-- Reading the parsed `savedItems` field as the typed store. -/
def decodeItems : Json → Option Store
  | Json.obj l => decodeStoreEntries l
  | _ => none

/-- The full load path: validate the document as `handleUpload` does, then
read the two installed fields in the typed shape the app consumes. -/
def decodeTyped (doc : Json) : Option (List TierRowData × Store) :=
  match decodeSnapshot doc with
  | some (r, i) =>
    match decodeRows r, decodeItems i with
    | some rows, some items => some (rows, items)
    | _, _ => none
  | none => none

/-! Basic association-list lemmas for the Partition Store. -/

theorem lookup_setVal_self (s : Store) (k : String) (v : List TierImage) :
    lookup (setVal s k v) k = some v := by
  induction s with
  | nil => simp [setVal, lookup]
  | cons hd t ih =>
    obtain ⟨k₁, v₁⟩ := hd
    by_cases h : k₁ = k
    · simp [setVal, h, lookup]
    · simp [setVal, h, lookup, ih]

theorem lookup_setVal_ne (s : Store) {k k₂ : String} (v : List TierImage) (h : k ≠ k₂) :
    lookup (setVal s k v) k₂ = lookup s k₂ := by
  induction s with
  | nil => simp [setVal, lookup, h]
  | cons hd t ih =>
    obtain ⟨k₁, v₁⟩ := hd
    by_cases h₁ : k₁ = k
    · simp [setVal, h₁, lookup, h]
    · simp only [setVal, h₁, if_false, lookup]
      by_cases h₂ : k₁ = k₂ <;> simp [h₂, ih]

theorem setVal_lookup_eq (s : Store) {k : String} {v : List TierImage}
    (h : lookup s k = some v) : setVal s k v = s := by
  induction s with
  | nil => simp [lookup] at h
  | cons hd t ih =>
    obtain ⟨k₁, v₁⟩ := hd
    by_cases h₁ : k₁ = k
    · simp [lookup, h₁] at h
      simp [setVal, h₁, h]
    · simp [lookup, h₁] at h
      simp [setVal, h₁, ih h]

theorem eraseKey_lookup_none (s : Store) {k : String} (h : lookup s k = none) :
    eraseKey s k = s := by
  induction s with
  | nil => simp [eraseKey]
  | cons hd t ih =>
    obtain ⟨k₁, v₁⟩ := hd
    by_cases h₁ : k₁ = k
    · simp [lookup, h₁] at h
    · simp [lookup, h₁] at h
      simp [eraseKey, h₁, ih h]

theorem lookup_eraseKey_ne (s : Store) {k k₂ : String} (h : k ≠ k₂) :
    lookup (eraseKey s k) k₂ = lookup s k₂ := by
  induction s with
  | nil => simp [eraseKey]
  | cons hd t ih =>
    obtain ⟨k₁, v₁⟩ := hd
    by_cases h₁ : k₁ = k
    · subst h₁
      simp [eraseKey, lookup, h]
    · simp only [eraseKey, h₁, if_false, lookup]
      by_cases h₂ : k₁ = k₂ <;> simp [h₂, ih]

theorem lookup_mem_keys {s : Store} {k : String} {v : List TierImage}
    (h : lookup s k = some v) : k ∈ s.map Prod.fst := by
  induction s with
  | nil => simp [lookup] at h
  | cons hd t ih =>
    obtain ⟨k₁, v₁⟩ := hd
    by_cases h₁ : k₁ = k
    · simp [h₁]
    · simp [lookup, h₁] at h
      simp [ih h]

theorem lookup_eraseKey_self (s : Store) {k : String}
    (hnd : (s.map Prod.fst).Nodup) : lookup (eraseKey s k) k = none := by
  induction s with
  | nil => simp [eraseKey, lookup]
  | cons hd t ih =>
    obtain ⟨k₁, v₁⟩ := hd
    simp only [List.map_cons, List.nodup_cons] at hnd
    by_cases h₁ : k₁ = k
    · subst h₁
      cases hl : lookup t k₁ with
      | none => simp [eraseKey, hl]
      | some v =>
        exact absurd (lookup_mem_keys hl) hnd.1
    · simp [eraseKey, h₁, lookup, ih hnd.2]

/-! Multiset accounting: the multiset of all items held by the store. -/

/-- The multiset union of all container sequences of the Partition Store. -/
def storeMS (s : Store) : Multiset TierImage :=
  (s.map (fun kv => (kv.2 : Multiset TierImage))).sum

@[simp] theorem storeMS_nil : storeMS [] = 0 := rfl

@[simp] theorem storeMS_cons (k : String) (v : List TierImage) (t : Store) :
    storeMS ((k, v) :: t) = (v : Multiset TierImage) + storeMS t := by
  simp [storeMS]

theorem storeMS_setVal {s : Store} {k : String} {v : List TierImage}
    (w : List TierImage) (h : lookup s k = some v) :
    storeMS (setVal s k w) + (v : Multiset TierImage) = storeMS s + (w : Multiset TierImage) := by
  induction s with
  | nil => simp [lookup] at h
  | cons hd t ih =>
    obtain ⟨k₁, v₁⟩ := hd
    by_cases h₁ : k₁ = k
    · simp only [lookup, h₁, if_true, Option.some.injEq] at h
      subst h
      simp only [setVal, h₁, if_true, storeMS_cons]
      abel
    · simp only [lookup, h₁, if_false] at h
      simp only [setVal, h₁, if_false, storeMS_cons]
      rw [add_assoc, add_assoc, ih h]

theorem storeMS_setVal_fresh {s : Store} {k : String}
    (w : List TierImage) (h : lookup s k = none) :
    storeMS (setVal s k w) = storeMS s + (w : Multiset TierImage) := by
  induction s with
  | nil => simp [setVal]
  | cons hd t ih =>
    obtain ⟨k₁, v₁⟩ := hd
    by_cases h₁ : k₁ = k
    · simp [lookup, h₁] at h
    · simp only [lookup, h₁, if_false] at h
      simp only [setVal, h₁, if_false, storeMS_cons, ih h]
      rw [add_assoc]

theorem storeMS_eraseKey {s : Store} {k : String} {v : List TierImage}
    (h : lookup s k = some v) :
    storeMS (eraseKey s k) + (v : Multiset TierImage) = storeMS s := by
  induction s with
  | nil => simp [lookup] at h
  | cons hd t ih =>
    obtain ⟨k₁, v₁⟩ := hd
    by_cases h₁ : k₁ = k
    · simp only [lookup, h₁, if_true, Option.some.injEq] at h
      subst h
      simp only [eraseKey, h₁, if_true, storeMS_cons]
      abel
    · simp only [lookup, h₁, if_false] at h
      simp only [eraseKey, h₁, if_false, storeMS_cons]
      rw [add_assoc, ih h]

/-! JavaScript array-move operations preserve the multiset of elements. -/

theorem spliceRemoveOne_ms {α : Type} {l : List α} {i : Int} {x : α} {r : List α}
    (h : spliceRemoveOne l i = (some x, r)) :
    (l : Multiset α) = x ::ₘ (r : Multiset α) := by
  unfold spliceRemoveOne at h
  rw [Prod.mk.injEq] at h
  obtain ⟨h₁, h₂⟩ := h
  rw [List.getElem?_eq_some] at h₁
  obtain ⟨hlt, hx⟩ := h₁
  have hperm : List.Perm l (x :: r) := by
    subst h₂
    subst hx
    conv_lhs => rw [← List.take_append_drop (clampStart i l.length) l,
      List.drop_eq_getElem_cons hlt]
    exact List.perm_middle
  rw [Multiset.cons_coe]
  exact Multiset.coe_eq_coe.mpr hperm

theorem insertAtClamped_ms {α : Type} (l : List α) (start : Int) (x : α) :
    (insertAtClamped l start x : Multiset α) = x ::ₘ (l : Multiset α) := by
  unfold insertAtClamped
  rw [Multiset.cons_coe]
  refine Multiset.coe_eq_coe.mpr ?_
  conv_rhs => rw [← List.take_append_drop (clampStart start l.length) l]
  exact List.perm_middle

theorem jsArrayMove_ms {α : Type} {l l₂ : List α} {i j : Int}
    (h : jsArrayMove l i j = some l₂) :
    (l₂ : Multiset α) = (l : Multiset α) := by
  unfold jsArrayMove at h
  cases hs : spliceRemoveOne l i with
  | mk fst snd =>
    cases fst with
    | none => rw [hs] at h; cases h
    | some x =>
      rw [hs] at h
      simp only [Option.some.injEq] at h
      subst h
      rw [insertAtClamped_ms, spliceRemoveOne_ms hs]

/-! Frame lemmas for the drag transaction engine. -/

theorem dragWithin_rows {activeId overId ac : String} {s s₂ : AppState}
    (h : dragWithin activeId overId ac s = some s₂) : s₂.rows = s.rows := by
  unfold dragWithin at h
  repeat' split at h
  all_goals cases h
  all_goals rfl

theorem dragAcross_rows {activeId overId ac oc : String} {s s₂ : AppState}
    (h : dragAcross activeId overId ac oc s = some s₂) : s₂.rows = s.rows := by
  unfold dragAcross at h
  repeat' split at h
  all_goals cases h
  all_goals rfl

theorem dragImage_rows {activeId overId : String} {s s₂ : AppState}
    (h : dragImage activeId overId s = some s₂) : s₂.rows = s.rows := by
  unfold dragImage at h
  repeat' split at h
  all_goals first
    | exact dragWithin_rows h
    | exact dragAcross_rows h
    | (cases h; rfl)

theorem dragWithin_ms {activeId overId ac : String} {s s₂ : AppState}
    (h : dragWithin activeId overId ac s = some s₂) :
    storeMS s₂.items = storeMS s.items := by
  unfold dragWithin at h
  repeat' split at h
  all_goals cases h
  all_goals try rfl
  case _ l hlook _ _ l₂ hmove =>
    have h₁ := storeMS_setVal (v := l) l₂ hlook
    rw [jsArrayMove_ms hmove] at h₁
    exact add_right_cancel h₁

theorem coe_append_singleton {α : Type} (l : List α) (x : α) :
    ((l ++ [x] : List α) : Multiset α) = x ::ₘ (l : Multiset α) := by
  have h : ((l ++ [x] : List α) : Multiset α) = (l : Multiset α) + ([x] : List α) :=
    (Multiset.coe_add l [x]).symm
  rw [h, Multiset.coe_singleton, add_comm, Multiset.singleton_add]

/-- Moving one element from one existing container to another preserves the
multiset union of the store. -/
theorem storeMS_move {items : Store} {ac oc : String}
    {src src₂ dst dst₂ : List TierImage} {x : TierImage}
    (hac : lookup items ac = some src)
    (hsrc : (src : Multiset TierImage) = x ::ₘ (src₂ : Multiset TierImage))
    (hoc : lookup (setVal items ac src₂) oc = some dst)
    (hdst : (dst₂ : Multiset TierImage) = x ::ₘ (dst : Multiset TierImage)) :
    storeMS (setVal (setVal items ac src₂) oc dst₂) = storeMS items := by
  have h1 := storeMS_setVal src₂ hac
  have h2 := storeMS_setVal dst₂ hoc
  rw [hsrc, ← Multiset.singleton_add, ← add_assoc] at h1
  have e1 := add_right_cancel h1
  rw [hdst, ← Multiset.singleton_add, ← add_assoc] at h2
  have e2 := add_right_cancel h2
  rw [e2, e1]

set_option maxHeartbeats 1000000 in
theorem dragAcross_ms {activeId overId ac oc : String} {s s₂ : AppState}
    (h : dragAcross activeId overId ac oc s = some s₂) :
    storeMS s₂.items = storeMS s.items := by
  unfold dragAcross at h
  cases hac : lookup s.items ac with
  | none => simp only [hac] at h; cases h
  | some src =>
    simp only [hac] at h
    cases hsp : spliceRemoveOne src (jsFindIndex (fun it => it.id = activeId) src) with
    | mk m src₂ =>
      simp only [hsp] at h
      cases m with
      | none => simp at h
      | some x =>
        have hsrc := spliceRemoveOne_ms hsp
        cases hoc : lookup (setVal s.items ac src₂) oc with
        | none => simp only [hoc] at h; cases h
        | some dst =>
          simp only [hoc] at h
          split at h
          · obtain rfl := Option.some.inj h
            exact storeMS_move hac hsrc hoc (coe_append_singleton dst x)
          · split at h
            · obtain rfl := Option.some.inj h
              refine storeMS_move hac hsrc hoc ?_
              exact insertAtClamped_ms dst (jsFindIndex (fun it => it.id = overId) dst) x
            · obtain rfl := Option.some.inj h
              exact storeMS_move hac hsrc hoc (coe_append_singleton dst x)

theorem dragImage_ms {activeId overId : String} {s s₂ : AppState}
    (h : dragImage activeId overId s = some s₂) :
    storeMS s₂.items = storeMS s.items := by
  unfold dragImage at h
  split at h
  · obtain rfl := Option.some.inj h; rfl
  · exact dragWithin_ms h
  · split at h
    · exact dragWithin_ms h
    · exact dragAcross_ms h

theorem dragEndOver_inv {activeId : String} {activeType : Option String} {over : DragOver}
    {s s₂ : AppState} (h : dragEndOver activeId activeType over s = some s₂) :
    storeMS s₂.items = storeMS s.items ∧
      (s₂.rows : Multiset TierRowData) = (s.rows : Multiset TierRowData) := by
  unfold dragEndOver at h
  split at h
  · split at h
    · split at h
      · next rows₂ hmove =>
          obtain rfl := Option.some.inj h
          exact ⟨rfl, jsArrayMove_ms hmove⟩
      · cases h
    · obtain rfl := Option.some.inj h; exact ⟨rfl, rfl⟩
  · split at h
    · refine ⟨dragImage_ms h, ?_⟩
      rw [dragImage_rows h]
    · obtain rfl := Option.some.inj h; exact ⟨rfl, rfl⟩

/-- A successful `handleDragEnd` never creates or destroys items: the
multiset union of the store is unchanged, and the registry is at most
permuted. -/
theorem handleDragEnd_inv {e : DragEndEvent} {s s₂ : AppState}
    (h : handleDragEnd e s = some s₂) :
    storeMS s₂.items = storeMS s.items ∧
      (s₂.rows : Multiset TierRowData) = (s.rows : Multiset TierRowData) := by
  unfold handleDragEnd at h
  split at h
  · obtain rfl := Option.some.inj h; exact ⟨rfl, rfl⟩
  · exact dragEndOver_inv h

/-- The states reachable from the initial state by the supported mutations,
paired with the list of items imported so far. The hypotheses on each step
record exactly what the UI guarantees when it invokes the handler: a freshly
generated `new-row-${uuid}` id for add-tier (never an existing container key
and never the reserved UNRANKED id), and a delete button that exists only on
currently rendered tiers. Drag events carry no hypothesis at all: any event
the handler completes without throwing is admitted. -/
inductive Reach : AppState → List TierImage → Prop where
  | init : Reach initState []
  | addTier {s : AppState} {imp : List TierImage} {id : String} (hr : Reach s imp)
      (hfresh : lookup s.items id = none) (hne : id ≠ UNRANKED_ID) :
      Reach (handleAddRow id s) imp
  | updateTier {s : AppState} {imp : List TierImage} (id lb c : String) (hr : Reach s imp) :
      Reach (handleUpdateRow id lb c s) imp
  | deleteTier {s : AppState} {imp : List TierImage} {id : String} {s₂ : AppState}
      (hr : Reach s imp) (hmem : id ∈ s.rows.map TierRowData.id)
      (h : handleDeleteRow id s = some s₂) : Reach s₂ imp
  | importImages {s : AppState} {imp : List TierImage} {imgs : List TierImage} {s₂ : AppState}
      (hr : Reach s imp) (h : handleImageUpload imgs s = some s₂) :
      Reach s₂ (imp ++ imgs)
  | dragEnd {s : AppState} {imp : List TierImage} {e : DragEndEvent} {s₂ : AppState}
      (hr : Reach s imp) (h : handleDragEnd e s = some s₂) : Reach s₂ imp

theorem reach_inv {s : AppState} {imp : List TierImage} (h : Reach s imp) :
    storeMS s.items = (imp : Multiset TierImage) ∧
      ∀ r ∈ s.rows, r.id ≠ UNRANKED_ID := by
  induction h with
  | init => exact ⟨rfl, by decide⟩
  | addTier hr hfresh hne ih =>
    obtain ⟨ihms, ihrows⟩ := ih
    constructor
    · rw [show (handleAddRow _ _).items = setVal _ _ [] from rfl,
        storeMS_setVal_fresh [] hfresh, ihms]
      simp
    · intro r hrm
      rcases List.mem_append.mp hrm with hmem | hmem
      · exact ihrows r hmem
      · simp only [List.mem_singleton] at hmem
        subst hmem
        exact hne
  | updateTier id lb c hr ih =>
    obtain ⟨ihms, ihrows⟩ := ih
    refine ⟨ihms, ?_⟩
    intro r hrm
    simp only [handleUpdateRow, List.mem_map] at hrm
    obtain ⟨r₀, hr₀, heq⟩ := hrm
    subst heq
    have hsame : (if r₀.id = id then
        { r₀ with label := lb, color := c } else r₀).id = r₀.id := by
      by_cases hid : r₀.id = id <;> simp [hid]
    simp only [hsame]
    exact ihrows r₀ hr₀
  | deleteTier hr hmem hdel ih =>
    obtain ⟨ihms, ihrows⟩ := ih
    rename_i s imp id s₂
    have hidne : id ≠ UNRANKED_ID := by
      simp only [List.mem_map] at hmem
      obtain ⟨r, hrmem, hrid⟩ := hmem
      rw [← hrid]
      exact ihrows r hrmem
    unfold handleDeleteRow at hdel
    cases hu : lookup s.items UNRANKED_ID with
    | none => rw [hu] at hdel; cases hdel
    | some unranked =>
      rw [hu] at hdel
      obtain rfl := Option.some.inj hdel
      refine ⟨?_, ?_⟩
      · show storeMS (eraseKey (setVal s.items UNRANKED_ID
          (unranked ++ (lookup s.items id).getD [])) id) = (imp : Multiset TierImage)
        cases hid : lookup s.items id with
        | none =>
          simp only [Option.getD_none, List.append_nil]
          rw [eraseKey_lookup_none _ (by rw [lookup_setVal_ne _ _ (Ne.symm hidne), hid]),
            setVal_lookup_eq _ hu, ihms]
        | some mv =>
          simp only [Option.getD_some]
          have e1 : storeMS (setVal s.items UNRANKED_ID (unranked ++ mv)) =
              storeMS s.items + (mv : Multiset TierImage) := by
            apply add_right_cancel (b := (unranked : Multiset TierImage))
            rw [storeMS_setVal (unranked ++ mv) hu,
              show ((unranked ++ mv : List TierImage) : Multiset TierImage) =
                (unranked : Multiset TierImage) + (mv : Multiset TierImage) from
                (Multiset.coe_add unranked mv).symm]
            abel
          have hlook₂ : lookup (setVal s.items UNRANKED_ID (unranked ++ mv)) id = some mv := by
            rw [lookup_setVal_ne _ _ (Ne.symm hidne), hid]
          have e2 := storeMS_eraseKey hlook₂
          rw [e1] at e2
          rw [← ihms]
          exact add_right_cancel e2
      · intro r hrm
        simp only [List.mem_filter] at hrm
        exact ihrows r hrm.1
  | importImages hr him ih =>
    obtain ⟨ihms, ihrows⟩ := ih
    rename_i s imp imgs s₂
    unfold handleImageUpload at him
    cases hu : lookup s.items UNRANKED_ID with
    | none => rw [hu] at him; cases him
    | some unranked =>
      rw [hu] at him
      obtain rfl := Option.some.inj him
      refine ⟨?_, ihrows⟩
      show storeMS (setVal s.items UNRANKED_ID (unranked ++ imgs)) =
        ((imp ++ imgs : List TierImage) : Multiset TierImage)
      apply add_right_cancel (b := (unranked : Multiset TierImage))
      rw [storeMS_setVal (unranked ++ imgs) hu, ihms,
        show ((unranked ++ imgs : List TierImage) : Multiset TierImage) =
          (unranked : Multiset TierImage) + (imgs : Multiset TierImage) from
          (Multiset.coe_add unranked imgs).symm,
        show ((imp ++ imgs : List TierImage) : Multiset TierImage) =
          (imp : Multiset TierImage) + (imgs : Multiset TierImage) from
          (Multiset.coe_add imp imgs).symm]
      abel
  | dragEnd hr hde ih =>
    obtain ⟨ihms, ihrows⟩ := ih
    obtain ⟨hms, hrows⟩ := handleDragEnd_inv hde
    refine ⟨by rw [hms, ihms], ?_⟩
    intro r hrm
    have hmem : r ∈ ((_ : List TierRowData) : Multiset TierRowData) := Multiset.mem_coe.mpr hrm
    rw [hrows] at hmem
    exact ihrows r (Multiset.mem_coe.mp hmem)

/-- C1: For every sequence of supported mutations (add tier, update tier,
delete tier, import images, within-container reorder, cross-container move,
tier reorder — the latter three being arbitrary drag-end events) starting
from the initial state, the multiset union of all container sequences in
the Partition Store equals exactly the multiset of items ever imported: no
item is duplicated and no item is lost. -/
theorem exhaustive_partition {s : AppState} {imported : List TierImage}
    (h : Reach s imported) :
    storeMS s.items = (imported : Multiset TierImage) :=
  (reach_inv h).1

/-- The state reached from the initial state by importing one image. -/
def stateAfterImport : AppState :=
  ⟨DEFAULT_ROWS,
   [("S", []), ("A", []), ("B", []), ("C", []), ("D", []),
    (UNRANKED_ID, [⟨"i1", "d1"⟩])]⟩

theorem exhaustive_partition_witness :
    storeMS stateAfterImport.items =
      (([⟨"i1", "d1"⟩] : List TierImage) : Multiset TierImage) :=
  exhaustive_partition
    (@Reach.importImages initState [] [⟨"i1", "d1"⟩] stateAfterImport Reach.init rfl)

/-! Nat-index forms of the JavaScript array operations, for stating the
reorder and move claims. -/

/-- Removal of the element at a (valid) index. -/
def removeAt (l : List α) (i : Nat) : List α := l.take i ++ l.drop (i + 1)

/-- Insertion at a (valid) index. -/
def insertAt (l : List α) (j : Nat) (x : α) : List α := l.take j ++ x :: l.drop j

theorem clampStart_natCast (i : Nat) (len : Nat) : clampStart (i : Int) len = min i len := by
  unfold clampStart
  rw [if_neg (by omega)]
  simp

theorem removeAt_length {l : List α} {i : Nat} (hi : i < l.length) :
    (removeAt l i).length = l.length - 1 := by
  unfold removeAt
  simp [List.length_take, List.length_drop]
  omega

theorem jsArrayMove_nat (l : List α) (i j : Nat) (hi : i < l.length) (hj : j < l.length) :
    jsArrayMove l (i : Int) (j : Int) =
      some (insertAt (removeAt l i) j (l.get ⟨i, hi⟩)) := by
  unfold jsArrayMove spliceRemoveOne
  rw [clampStart_natCast]
  rw [min_eq_left (le_of_lt hi)]
  rw [List.getElem?_eq_getElem hi]
  show some (insertAtClamped (l.take i ++ l.drop (i + 1)) _ _) = _
  rw [if_neg (by omega)]
  unfold insertAtClamped
  rw [show l.take i ++ l.drop (i + 1) = removeAt l i from rfl]
  rw [clampStart_natCast, removeAt_length hi, min_eq_left (by omega)]
  rfl

theorem jsFindIndexNat_append (p : α → Bool) (l₁ : List α) (x : α) (l₂ : List α)
    (h₁ : ∀ y ∈ l₁, ¬ p y) (hx : p x) :
    jsFindIndexNat p (l₁ ++ x :: l₂) = some l₁.length := by
  induction l₁ with
  | nil => simp [jsFindIndexNat, hx]
  | cons a t ih =>
    have ha : ¬ p a := h₁ a (by simp)
    simp only [List.cons_append, jsFindIndexNat, Bool.not_eq_true] at ha ⊢
    rw [if_neg (by simp [ha])]
    simp only [List.append_eq]
    rw [ih (fun y hy => h₁ y (by simp [hy]))]
    rfl

theorem jsFindIndexNat_none (p : α → Bool) (l : List α) (h : ∀ y ∈ l, ¬ p y) :
    jsFindIndexNat p l = none := by
  induction l with
  | nil => rfl
  | cons a t ih =>
    simp only [jsFindIndexNat]
    rw [if_neg (by simpa using h a (by simp))]
    rw [ih (fun y hy => h y (by simp [hy]))]
    rfl

theorem jsFindIndex_append (p : α → Bool) (l₁ : List α) (x : α) (l₂ : List α)
    (h₁ : ∀ y ∈ l₁, ¬ p y) (hx : p x) :
    jsFindIndex p (l₁ ++ x :: l₂) = (l₁.length : Int) := by
  unfold jsFindIndex
  rw [jsFindIndexNat_append p l₁ x l₂ h₁ hx]

theorem jsFindIndex_none (p : α → Bool) (l : List α) (h : ∀ y ∈ l, ¬ p y) :
    jsFindIndex p l = -1 := by
  unfold jsFindIndex
  rw [jsFindIndexNat_none p l h]

/-! The Container Resolver: identifier-space facts. -/

/-- All item ids held anywhere in the store, in store order. -/
def storeItemIds (items : Store) : List String :=
  (items.map (fun kv => kv.2.map TierImage.id)).flatten

/-- The identifier-space discipline the app maintains at runtime: item ids
(crypto.randomUUID values) are globally distinct, and are disjoint from the
reserved UNRANKED id, from all tier ids, and from the empty string. -/
def WF (s : AppState) : Prop :=
  (storeItemIds s.items).Nodup ∧
  ∀ i ∈ storeItemIds s.items,
    i ≠ UNRANKED_ID ∧ i ∉ s.rows.map TierRowData.id ∧ i ≠ ""

theorem mem_storeItemIds_of_lookup {items : Store} {c : String} {l : List TierImage}
    {x : TierImage} (hc : lookup items c = some l) (hx : x ∈ l) :
    x.id ∈ storeItemIds items := by
  induction items with
  | nil => simp [lookup] at hc
  | cons hd t ih =>
    obtain ⟨k₁, v₁⟩ := hd
    by_cases h₁ : k₁ = c
    · simp only [lookup, h₁, if_true, Option.some.injEq] at hc
      subst hc
      simp [storeItemIds]
      exact Or.inl ⟨x, hx, rfl⟩
    · simp only [lookup, h₁, if_false] at hc
      simp only [storeItemIds, List.map_cons, List.flatten_cons, List.mem_append]
      right
      simpa [storeItemIds] using ih hc

theorem map_id_sublist_storeItemIds {items : Store} {c : String} {l : List TierImage}
    (hc : lookup items c = some l) :
    List.Sublist (l.map TierImage.id) (storeItemIds items) := by
  induction items with
  | nil => simp [lookup] at hc
  | cons hd t ih =>
    obtain ⟨k₁, v₁⟩ := hd
    by_cases h₁ : k₁ = c
    · simp only [lookup, h₁, if_true, Option.some.injEq] at hc
      subst hc
      simp only [storeItemIds, List.map_cons, List.flatten_cons]
      exact List.sublist_append_left _ _
    · simp only [lookup, h₁, if_false] at hc
      simp only [storeItemIds, List.map_cons, List.flatten_cons]
      exact List.Sublist.trans (ih hc) (List.sublist_append_right _ _)

theorem ids_nodup_of_lookup {items : Store} (hnd : (storeItemIds items).Nodup)
    {c : String} {l : List TierImage} (hc : lookup items c = some l) :
    (l.map TierImage.id).Nodup :=
  (map_id_sublist_storeItemIds hc).nodup hnd

/-- A container id (the UNRANKED id or a current tier id) resolves to
itself. -/
theorem findContainer_self (rows : List TierRowData) (items : Store) {c : String}
    (h : c = UNRANKED_ID ∨ c ∈ rows.map TierRowData.id) :
    findContainer rows items c = some c := by
  unfold findContainer
  rw [if_pos]
  rcases h with h | h
  · exact Or.inl h
  · right
    simp only [List.mem_map] at h
    obtain ⟨r, hr, hrid⟩ := h
    simp only [List.any_eq_true]
    exact ⟨r, hr, by simp [hrid]⟩

theorem scanContainers_eq {items : Store} (hnd : (storeItemIds items).Nodup)
    {c : String} {l : List TierImage} {x : TierImage}
    (hc : lookup items c = some l) (hx : x ∈ l) :
    scanContainers items x.id = some c := by
  induction items with
  | nil => simp [lookup] at hc
  | cons hd t ih =>
    obtain ⟨k₁, v₁⟩ := hd
    simp only [storeItemIds, List.map_cons, List.flatten_cons, List.nodup_append] at hnd
    by_cases h₁ : k₁ = c
    · simp only [lookup, h₁, if_true, Option.some.injEq] at hc
      subst hc
      subst h₁
      have hcond : v₁.any (fun it => it.id = x.id) = true := by
        rw [List.any_eq_true]
        exact ⟨x, hx, by simp⟩
      unfold scanContainers
      rw [if_pos hcond]
    · simp only [lookup, h₁, if_false] at hc
      have hcond : ¬ (v₁.any (fun it => it.id = x.id) = true) := by
        intro hcontra
        rw [List.any_eq_true] at hcontra
        obtain ⟨y, hy, hyx⟩ := hcontra
        rw [decide_eq_true_eq] at hyx
        have hxid : x.id ∈ storeItemIds t := mem_storeItemIds_of_lookup hc hx
        have hyid : x.id ∈ v₁.map TierImage.id := by
          rw [← hyx]
          exact List.mem_map_of_mem TierImage.id hy
        exact hnd.2.2 hyid (by simpa [storeItemIds] using hxid)
      unfold scanContainers
      rw [if_neg hcond]
      exact ih hnd.2.1 hc

/-- An item id held by container `c` resolves to `c` under the id-space
discipline. -/
theorem findContainer_of_item {s : AppState} (hWF : WF s) {c : String}
    {l : List TierImage} {x : TierImage}
    (hc : lookup s.items c = some l) (hx : x ∈ l) :
    findContainer s.rows s.items x.id = some c := by
  obtain ⟨hid₁, hid₂, hid₃⟩ := hWF.2 x.id (mem_storeItemIds_of_lookup hc hx)
  unfold findContainer
  rw [if_neg]
  · exact scanContainers_eq hWF.1 hc hx
  · intro hcontra
    rcases hcontra with hcontra | hcontra
    · exact hid₁ hcontra
    · rw [List.any_eq_true] at hcontra
      obtain ⟨r, hr, hrx⟩ := hcontra
      rw [decide_eq_true_eq] at hrx
      exact hid₂ (by rw [← hrx]; exact List.mem_map_of_mem TierRowData.id hr)

theorem jsFindIndexNat_get {α : Type} (f : α → String) {l : List α}
    (hnd : (l.map f).Nodup) (i : Nat) (hi : i < l.length) :
    jsFindIndexNat (fun a => f a = f (l.get ⟨i, hi⟩)) l = some i := by
  induction l generalizing i with
  | nil => simp at hi
  | cons a t ih =>
    simp only [List.map_cons, List.nodup_cons] at hnd
    cases i with
    | zero => simp [jsFindIndexNat]
    | succ n =>
      have hn : n < t.length := by simpa using hi
      have hget : (a :: t).get ⟨n + 1, hi⟩ = t.get ⟨n, hn⟩ := rfl
      have hne : ¬ (f a = f (t.get ⟨n, hn⟩)) := by
        intro hcontra
        exact hnd.1 (hcontra ▸ List.mem_map_of_mem f (List.get_mem t n hn))
      simp only [jsFindIndexNat, hget]
      rw [if_neg (by simpa using hne)]
      rw [ih hnd.2 n hn]
      rfl

theorem jsFindIndex_get {α : Type} (f : α → String) {l : List α}
    (hnd : (l.map f).Nodup) (i : Nat) (hi : i < l.length) :
    jsFindIndex (fun a => f a = f (l.get ⟨i, hi⟩)) l = (i : Int) := by
  unfold jsFindIndex
  rw [jsFindIndexNat_get f hnd i hi]

/-- A drop target reduces `handleDragEnd` with an IMAGE active kind to the
image branch, whatever the target kind. -/
theorem dragEndOver_image (activeId overId : String) (overType : Option String)
    (s : AppState) :
    handleDragEnd ⟨activeId, some ItemTypes.IMAGE, some ⟨overId, overType⟩⟩ s =
      dragImage activeId overId s := by
  show dragEndOver activeId (some ItemTypes.IMAGE) ⟨overId, overType⟩ s =
    dragImage activeId overId s
  unfold dragEndOver
  have hne : ¬ ((some ItemTypes.IMAGE : Option String) = some ItemTypes.ROW ∧
      DragOver.dataType ⟨overId, overType⟩ = some ItemTypes.ROW) := by
    rintro ⟨h1, h2⟩
    exact absurd (Option.some.inj h1) (by decide)
  rw [if_neg hne, if_pos rfl]

theorem dragImage_same {activeId overId c : String} {s : AppState}
    (hax : findContainer s.rows s.items activeId = some c)
    (hoy : findContainer s.rows s.items overId = some c) :
    dragImage activeId overId s = dragWithin activeId overId c s := by
  unfold dragImage
  simp only [hax, hoy, if_true]

theorem dragImage_cross {activeId overId sc dc : String} {s : AppState}
    (hax : findContainer s.rows s.items activeId = some sc)
    (hoy : findContainer s.rows s.items overId = some dc)
    (hne : sc ≠ dc) :
    dragImage activeId overId s = dragAcross activeId overId sc dc s := by
  unfold dragImage
  simp only [hax, hoy]
  rw [if_neg hne]

/-- C7: For every within-container reposition of an item (an IMAGE drag
whose active and over ids are items of the same container), the item at
`fromIndex` is removed and reinserted at `toIndex` in that sequence; it is
a no-op when `fromIndex = toIndex`; and no other container changes. -/
theorem within_container_reorder {s : AppState} (hWF : WF s) {c : String}
    {l : List TierImage} (hcont : lookup s.items c = some l)
    {i j : Nat} (hi : i < l.length) (hj : j < l.length) (overType : Option String) :
    (i ≠ j →
      handleDragEnd ⟨(l.get ⟨i, hi⟩).id, some ItemTypes.IMAGE,
          some ⟨(l.get ⟨j, hj⟩).id, overType⟩⟩ s =
        some { s with items := (setVal s.items c
          (insertAt (removeAt l i) j (l.get ⟨i, hi⟩))) }) ∧
    (i = j →
      handleDragEnd ⟨(l.get ⟨i, hi⟩).id, some ItemTypes.IMAGE,
          some ⟨(l.get ⟨j, hj⟩).id, overType⟩⟩ s = some s) ∧
    (∀ k, k ≠ c →
      lookup (setVal s.items c (insertAt (removeAt l i) j (l.get ⟨i, hi⟩))) k =
        lookup s.items k) := by
  have hx : l.get ⟨i, hi⟩ ∈ l := List.get_mem l i hi
  have hy : l.get ⟨j, hj⟩ ∈ l := List.get_mem l j hj
  have hfcx : findContainer s.rows s.items (l.get ⟨i, hi⟩).id = some c :=
    findContainer_of_item hWF hcont hx
  have hfcy : findContainer s.rows s.items (l.get ⟨j, hj⟩).id = some c :=
    findContainer_of_item hWF hcont hy
  have hyne : (l.get ⟨j, hj⟩).id ≠ "" :=
    (hWF.2 _ (mem_storeItemIds_of_lookup hcont hy)).2.2
  have hnd : (l.map TierImage.id).Nodup := ids_nodup_of_lookup hWF.1 hcont
  have hai := jsFindIndex_get TierImage.id hnd i hi
  have haj := jsFindIndex_get TierImage.id hnd j hj
  refine ⟨?_, ?_, ?_⟩
  · intro hij
    rw [dragEndOver_image, dragImage_same hfcx hfcy]
    unfold dragWithin
    rw [if_pos hyne]
    simp only [hcont]
    rw [hai, haj]
    rw [if_pos ⟨by omega, by omega, by
      intro hcontra
      exact hij (by exact_mod_cast hcontra)⟩]
    rw [jsArrayMove_nat l i j hi hj]
  · intro hij
    subst hij
    rw [dragEndOver_image, dragImage_same hfcx hfcy]
    unfold dragWithin
    rw [if_pos hyne]
    simp only [hcont]
    rw [hai]
    rw [if_neg (by rintro ⟨h1, h2, h3⟩; exact h3 rfl)]
  · intro k hk
    exact lookup_setVal_ne _ _ (Ne.symm hk)

theorem within_container_reorder_witness :
    handleDragEnd ⟨"b", some ItemTypes.IMAGE, some ⟨"d", some ItemTypes.IMAGE⟩⟩
      ⟨[⟨"T", "T", "#111111"⟩],
       [("T", [⟨"a", "pa"⟩, ⟨"b", "pb"⟩, ⟨"c", "pc"⟩, ⟨"d", "pd"⟩]), (UNRANKED_ID, [])]⟩ =
    some ⟨[⟨"T", "T", "#111111"⟩],
       [("T", [⟨"a", "pa"⟩, ⟨"c", "pc"⟩, ⟨"d", "pd"⟩, ⟨"b", "pb"⟩]), (UNRANKED_ID, [])]⟩ :=
  (@within_container_reorder
    ⟨[⟨"T", "T", "#111111"⟩],
     [("T", [⟨"a", "pa"⟩, ⟨"b", "pb"⟩, ⟨"c", "pc"⟩, ⟨"d", "pd"⟩]), (UNRANKED_ID, [])]⟩
    (by unfold WF; decide) "T" [⟨"a", "pa"⟩, ⟨"b", "pb"⟩, ⟨"c", "pc"⟩, ⟨"d", "pd"⟩] rfl
    1 3 (by decide) (by decide) (some ItemTypes.IMAGE)).1 (by decide)

/-- C10: An IMAGE drag dropped on the body of the container that already
holds the dragged item (over id = that container's id) leaves the whole
state, Partition Store and Tier Registry alike, unchanged. -/
theorem drop_on_own_container_noop {s : AppState} (hWF : WF s) {c : String}
    {l : List TierImage} {x : TierImage}
    (hcont : c = UNRANKED_ID ∨ c ∈ s.rows.map TierRowData.id)
    (hc : lookup s.items c = some l) (hx : x ∈ l) (overType : Option String) :
    handleDragEnd ⟨x.id, some ItemTypes.IMAGE, some ⟨c, overType⟩⟩ s = some s := by
  rw [dragEndOver_image,
    dragImage_same (findContainer_of_item hWF hc hx) (findContainer_self _ _ hcont)]
  unfold dragWithin
  by_cases hce : c = ""
  · rw [if_neg (fun hcon => hcon hce)]
  · rw [if_pos hce]
    simp only [hc]
    have hoi : jsFindIndex (fun it => it.id = c) l = -1 := by
      apply jsFindIndex_none
      intro y hy
      simp only [decide_eq_true_eq]
      obtain ⟨hy₁, hy₂, hy₃⟩ := hWF.2 y.id (mem_storeItemIds_of_lookup hc hy)
      rcases hcont with hcu | hcr
      · rw [hcu]; exact hy₁
      · intro hcontra
        exact hy₂ (hcontra ▸ hcr)
    rw [hoi]
    rw [if_neg (by rintro ⟨h1, h2, h3⟩; exact h2 rfl)]

theorem drop_on_own_container_noop_witness :
    handleDragEnd ⟨"a", some ItemTypes.IMAGE, some ⟨"T", some ItemTypes.ROW⟩⟩
      ⟨[⟨"T", "T", "#111111"⟩], [("T", [⟨"a", "pa"⟩, ⟨"b", "pb"⟩]), (UNRANKED_ID, [])]⟩ =
    some ⟨[⟨"T", "T", "#111111"⟩], [("T", [⟨"a", "pa"⟩, ⟨"b", "pb"⟩]), (UNRANKED_ID, [])]⟩ :=
  @drop_on_own_container_noop
    ⟨[⟨"T", "T", "#111111"⟩], [("T", [⟨"a", "pa"⟩, ⟨"b", "pb"⟩]), (UNRANKED_ID, [])]⟩
    (by unfold WF; decide) "T" [⟨"a", "pa"⟩, ⟨"b", "pb"⟩] ⟨"a", "pa"⟩
    (by decide) rfl (by decide) (some ItemTypes.ROW)

theorem dragEndOver_row (activeId overId : String) (s : AppState) :
    handleDragEnd ⟨activeId, some ItemTypes.ROW, some ⟨overId, some ItemTypes.ROW⟩⟩ s =
      (if activeId ≠ overId then
        match jsArrayMove s.rows (jsFindIndex (fun r => r.id = activeId) s.rows)
            (jsFindIndex (fun r => r.id = overId) s.rows) with
        | some rows₂ => some { s with rows := rows₂ }
        | none => none
      else some s) := by
  show dragEndOver activeId (some ItemTypes.ROW) ⟨overId, some ItemTypes.ROW⟩ s = _
  unfold dragEndOver
  rw [if_pos ⟨rfl, rfl⟩]

/-- C8: A drag where both entities are tiers (ROW kinds): when the ids
differ, the Tier Registry is reordered by removing the active tier at its
current index and reinserting it at the index currently (pre-move) occupied
by the over tier, the other tiers shifting accordingly; when the ids are
equal nothing changes; the Partition Store field is untouched in both
cases. -/
theorem tier_reorder {s : AppState} (hnd : (s.rows.map TierRowData.id).Nodup)
    (i j : Nat) (hi : i < s.rows.length) (hj : j < s.rows.length) :
    (i ≠ j →
      handleDragEnd ⟨(s.rows.get ⟨i, hi⟩).id, some ItemTypes.ROW,
          some ⟨(s.rows.get ⟨j, hj⟩).id, some ItemTypes.ROW⟩⟩ s =
        some { s with rows := (insertAt (removeAt s.rows i) j (s.rows.get ⟨i, hi⟩)) }) ∧
    (i = j →
      handleDragEnd ⟨(s.rows.get ⟨i, hi⟩).id, some ItemTypes.ROW,
          some ⟨(s.rows.get ⟨j, hj⟩).id, some ItemTypes.ROW⟩⟩ s = some s) := by
  constructor
  · intro hij
    have hi' : i < (s.rows.map TierRowData.id).length := by simpa using hi
    have hj' : j < (s.rows.map TierRowData.id).length := by simpa using hj
    have hne : (s.rows.get ⟨i, hi⟩).id ≠ (s.rows.get ⟨j, hj⟩).id := by
      intro hcontra
      apply hij
      have hmi : (s.rows.map TierRowData.id).get ⟨i, hi'⟩ =
          (s.rows.map TierRowData.id).get ⟨j, hj'⟩ := by
        simpa [List.getElem_map] using hcontra
      have := (List.Nodup.get_inj_iff hnd).mp hmi
      simpa using congrArg Fin.val this
    rw [dragEndOver_row]
    rw [if_pos hne]
    rw [jsFindIndex_get TierRowData.id hnd i hi, jsFindIndex_get TierRowData.id hnd j hj]
    rw [jsArrayMove_nat s.rows i j hi hj]
  · intro hij
    subst hij
    rw [dragEndOver_row]
    rw [if_neg (fun hcon => hcon rfl)]

theorem tier_reorder_witness :
    handleDragEnd ⟨"S", some ItemTypes.ROW, some ⟨"B", some ItemTypes.ROW⟩⟩ initState =
      some ⟨[⟨"A", "A", "#ffbf7f"⟩, ⟨"B", "B", "#ffff7f"⟩, ⟨"S", "S", "#ff7f7f"⟩,
             ⟨"C", "C", "#7fff7f"⟩, ⟨"D", "D", "#7fbfff"⟩], DEFAULT_ITEMS⟩ :=
  (@tier_reorder initState (by decide) 0 2 (by decide) (by decide)).1 (by decide)

theorem spliceRemoveOne_append (p q : List α) (x : α) :
    spliceRemoveOne (p ++ x :: q) ((p.length : Nat) : Int) = (some x, p ++ q) := by
  unfold spliceRemoveOne
  have hlen : p.length < (p ++ x :: q).length := by simp
  rw [clampStart_natCast, min_eq_left (le_of_lt hlen)]
  congr 1
  · rw [List.getElem?_append_right (Nat.le_refl p.length)]
    simp
  · have h₁ : (p ++ x :: q).take p.length = p := List.take_left p (x :: q)
    have h₂ : (p ++ x :: q).drop (p.length + 1) = q := by
      rw [show p ++ x :: q = (p ++ [x]) ++ q by simp]
      rw [show p.length + 1 = (p ++ [x]).length by simp]
      exact List.drop_left _ _
    rw [h₁, h₂]

theorem insertAtClamped_natCast {α : Type} (l : List α) (j : Nat) (hj : j ≤ l.length)
    (x : α) : insertAtClamped l ((j : Nat) : Int) x = insertAt l j x := by
  unfold insertAtClamped insertAt
  rw [clampStart_natCast, min_eq_left hj]

theorem storeItemIds_setVal_sublist {items : Store} {k : String} {v w : List TierImage}
    (hlook : lookup items k = some v)
    (hsub : List.Sublist (w.map TierImage.id) (v.map TierImage.id)) :
    List.Sublist (storeItemIds (setVal items k w)) (storeItemIds items) := by
  induction items with
  | nil => simp [lookup] at hlook
  | cons hd t ih =>
    obtain ⟨k₁, v₁⟩ := hd
    by_cases h₁ : k₁ = k
    · simp only [lookup, h₁, if_true, Option.some.injEq] at hlook
      subst hlook
      simp only [setVal, h₁, if_true, storeItemIds, List.map_cons, List.flatten_cons]
      exact List.Sublist.append hsub (List.Sublist.refl _)
    · simp only [lookup, h₁, if_false] at hlook
      simp only [setVal, h₁, if_false, storeItemIds, List.map_cons, List.flatten_cons]
      exact List.Sublist.append (List.Sublist.refl _) (ih hlook)

/-- C5: For every cross-container drag of an item: dropping on the
destination container's own id appends the removed item at the end of the
destination; dropping on an item of the destination inserts the removed
item immediately before that item's current position; the source sequence
loses exactly the moved item and keeps its other elements in order; and all
other containers are untouched. -/
theorem cross_container_move {s : AppState} (hWF : WF s) {sc dc : String}
    {p q dst : List TierImage} {x : TierImage}
    (hsc : lookup s.items sc = some (p ++ x :: q))
    (hdc : lookup s.items dc = some dst)
    (hnesd : sc ≠ dc)
    (hdcont : dc = UNRANKED_ID ∨ dc ∈ s.rows.map TierRowData.id)
    (overType : Option String) :
    (handleDragEnd ⟨x.id, some ItemTypes.IMAGE, some ⟨dc, overType⟩⟩ s =
      some { s with items := (setVal (setVal s.items sc (p ++ q)) dc (dst ++ [x])) }) ∧
    (∀ (j : Nat) (hj : j < dst.length),
      handleDragEnd ⟨x.id, some ItemTypes.IMAGE, some ⟨(dst.get ⟨j, hj⟩).id, overType⟩⟩ s =
        some { s with items := (setVal (setVal s.items sc (p ++ q)) dc (insertAt dst j x)) }) ∧
    (∀ (w : List TierImage) (k : String), k ≠ sc → k ≠ dc →
      lookup (setVal (setVal s.items sc (p ++ q)) dc w) k = lookup s.items k) := by
  have hxmem : x ∈ p ++ x :: q := by simp
  have hfcx : findContainer s.rows s.items x.id = some sc :=
    findContainer_of_item hWF hsc hxmem
  have hndsrc : ((p ++ x :: q).map TierImage.id).Nodup := ids_nodup_of_lookup hWF.1 hsc
  have hnddst : (dst.map TierImage.id).Nodup := ids_nodup_of_lookup hWF.1 hdc
  have hai : jsFindIndex (fun it => it.id = x.id) (p ++ x :: q) = ((p.length : Nat) : Int) := by
    apply jsFindIndex_append
    · intro y hy
      simp only [decide_eq_true_eq]
      intro hcontra
      simp only [List.map_append, List.map_cons, List.nodup_append] at hndsrc
      exact hndsrc.2.2 (hcontra ▸ List.mem_map_of_mem TierImage.id hy) (by simp)
    · simp
  have hdc₁ : lookup (setVal s.items sc (p ++ q)) dc = some dst := by
    rw [lookup_setVal_ne _ _ hnesd]
    exact hdc
  have hsub : List.Sublist (storeItemIds (setVal s.items sc (p ++ q))) (storeItemIds s.items) :=
    storeItemIds_setVal_sublist hsc (by
      simp only [List.map_append, List.map_cons]
      exact List.Sublist.append_left (List.sublist_cons_self _ _) _)
  have hWF₁ : WF ⟨s.rows, setVal s.items sc (p ++ q)⟩ := by
    refine ⟨hsub.nodup hWF.1, ?_⟩
    intro i hmem
    exact hWF.2 i (hsub.subset hmem)
  refine ⟨?_, ?_, ?_⟩
  · rw [dragEndOver_image,
      dragImage_cross hfcx (findContainer_self _ _ hdcont) hnesd]
    unfold dragAcross
    simp only [hsc, hai, spliceRemoveOne_append]
    simp only [hdc₁]
    rw [if_pos (findContainer_self _ _ hdcont)]
  · intro j hj
    have hymem : dst.get ⟨j, hj⟩ ∈ dst := List.get_mem dst j hj
    have hfcy : findContainer s.rows s.items (dst.get ⟨j, hj⟩).id = some dc :=
      findContainer_of_item hWF hdc hymem
    obtain ⟨hy₁, hy₂, hy₃⟩ := hWF.2 _ (mem_storeItemIds_of_lookup hdc hymem)
    have hydc : (dst.get ⟨j, hj⟩).id ≠ dc := by
      rcases hdcont with hdcu | hdcr
      · rw [hdcu]; exact hy₁
      · intro hcontra
        exact hy₂ (hcontra ▸ hdcr)
    have hfcy₁ : findContainer s.rows (setVal s.items sc (p ++ q)) (dst.get ⟨j, hj⟩).id =
        some dc := findContainer_of_item hWF₁ hdc₁ hymem
    rw [dragEndOver_image, dragImage_cross hfcx hfcy hnesd]
    unfold dragAcross
    simp only [hsc, hai, spliceRemoveOne_append]
    simp only [hdc₁]
    rw [if_neg (by
      intro hcontra
      rw [hfcy₁] at hcontra
      exact hydc (Option.some.inj hcontra).symm)]
    rw [jsFindIndex_get TierImage.id hnddst j hj]
    rw [if_pos (by omega)]
    rw [insertAtClamped_natCast dst j (le_of_lt hj) x]
  · intro w k hksc hkdc
    rw [lookup_setVal_ne _ _ (Ne.symm hkdc), lookup_setVal_ne _ _ (Ne.symm hksc)]

theorem cross_container_move_witness :
    handleDragEnd ⟨"b", some ItemTypes.IMAGE, some ⟨"y", some ItemTypes.IMAGE⟩⟩
      ⟨[⟨"S", "S", "#111111"⟩, ⟨"A", "A", "#222222"⟩],
       [("S", [⟨"a", "pa"⟩, ⟨"b", "pb"⟩]), ("A", [⟨"x", "px"⟩, ⟨"y", "py"⟩]),
        (UNRANKED_ID, [])]⟩ =
    some ⟨[⟨"S", "S", "#111111"⟩, ⟨"A", "A", "#222222"⟩],
       [("S", [⟨"a", "pa"⟩]), ("A", [⟨"x", "px"⟩, ⟨"b", "pb"⟩, ⟨"y", "py"⟩]),
        (UNRANKED_ID, [])]⟩ :=
  (@cross_container_move
    ⟨[⟨"S", "S", "#111111"⟩, ⟨"A", "A", "#222222"⟩],
     [("S", [⟨"a", "pa"⟩, ⟨"b", "pb"⟩]), ("A", [⟨"x", "px"⟩, ⟨"y", "py"⟩]),
      (UNRANKED_ID, [])]⟩
    (by unfold WF; decide) "S" "A" [⟨"a", "pa"⟩] [] [⟨"x", "px"⟩, ⟨"y", "py"⟩] ⟨"b", "pb"⟩
    rfl rfl (by decide) (by decide) (some ItemTypes.IMAGE)).2.1 1 (by decide)

theorem keys_setVal_mem {s : Store} {k : String} {v w : List TierImage}
    (h : lookup s k = some v) : (setVal s k w).map Prod.fst = s.map Prod.fst := by
  induction s with
  | nil => simp [lookup] at h
  | cons hd t ih =>
    obtain ⟨k₁, v₁⟩ := hd
    by_cases h₁ : k₁ = k
    · simp [setVal, h₁]
    · simp only [lookup, h₁, if_false] at h
      simp [setVal, h₁, ih h]

/-- C6: Deleting a tier `T` appends `T`'s items, in their existing relative
order, to the end of the UNRANKED sequence, removes `T` from the Tier
Registry order and from the Partition Store's keys, and leaves every other
container unchanged. -/
theorem tier_delete_migration {s : AppState} {T : String} {ts us : List TierImage}
    (hT : lookup s.items T = some ts) (hU : lookup s.items UNRANKED_ID = some us)
    (hne : T ≠ UNRANKED_ID) (hkeys : (s.items.map Prod.fst).Nodup) :
    handleDeleteRow T s =
      some ⟨s.rows.filter (fun r => r.id ≠ T),
            eraseKey (setVal s.items UNRANKED_ID (us ++ ts)) T⟩ ∧
    lookup (eraseKey (setVal s.items UNRANKED_ID (us ++ ts)) T) UNRANKED_ID =
      some (us ++ ts) ∧
    lookup (eraseKey (setVal s.items UNRANKED_ID (us ++ ts)) T) T = none ∧
    (∀ k, k ≠ T → k ≠ UNRANKED_ID →
      lookup (eraseKey (setVal s.items UNRANKED_ID (us ++ ts)) T) k = lookup s.items k) := by
  refine ⟨?_, ?_, ?_, ?_⟩
  · unfold handleDeleteRow
    simp only [hU, hT, Option.getD_some]
  · rw [lookup_eraseKey_ne _ hne, lookup_setVal_self]
  · apply lookup_eraseKey_self
    rw [keys_setVal_mem hU]
    exact hkeys
  · intro k hkT hkU
    rw [lookup_eraseKey_ne _ (Ne.symm hkT), lookup_setVal_ne _ _ (Ne.symm hkU)]

theorem tier_delete_migration_witness :
    handleDeleteRow "T"
      ⟨[⟨"T", "T", "#111111"⟩],
       [("T", [⟨"a", "pa"⟩, ⟨"b", "pb"⟩, ⟨"c", "pc"⟩]),
        (UNRANKED_ID, [⟨"x", "px"⟩, ⟨"y", "py"⟩])]⟩ =
    some ⟨[],
       [(UNRANKED_ID, [⟨"x", "px"⟩, ⟨"y", "py"⟩, ⟨"a", "pa"⟩, ⟨"b", "pb"⟩, ⟨"c", "pc"⟩])]⟩ :=
  (@tier_delete_migration
    ⟨[⟨"T", "T", "#111111"⟩],
     [("T", [⟨"a", "pa"⟩, ⟨"b", "pb"⟩, ⟨"c", "pc"⟩]),
      (UNRANKED_ID, [⟨"x", "px"⟩, ⟨"y", "py"⟩])]⟩
    "T" [⟨"a", "pa"⟩, ⟨"b", "pb"⟩, ⟨"c", "pc"⟩] [⟨"x", "px"⟩, ⟨"y", "py"⟩]
    rfl rfl (by decide) (by decide)).1

/-- C2 counterexample: calling `handleDeleteRow` with the reserved UNRANKED
id does not leave the Partition Store unchanged: the UNRANKED key (and the
item it holds) is removed from the store. -/
theorem deleteTier_unranked_cex :
    handleDeleteRow UNRANKED_ID stateAfterImport =
      some ⟨DEFAULT_ROWS, [("S", []), ("A", []), ("B", []), ("C", []), ("D", [])]⟩ ∧
    stateAfterImport.items ≠ [("S", []), ("A", []), ("B", []), ("C", []), ("D", [])] :=
  ⟨rfl, by decide⟩

/-- C2 (amended): deleting an id that is neither in the Tier Registry nor a
key of the Partition Store is a perfect no-op, provided the UNRANKED key is
present (without it the handler throws); the UNRANKED id itself is excluded
because deleting it removes the UNRANKED container. -/
theorem deleteTier_unknown_noop {s : AppState} {id : String}
    (hrows : id ∉ s.rows.map TierRowData.id)
    (hitems : lookup s.items id = none)
    {us : List TierImage} (hU : lookup s.items UNRANKED_ID = some us) :
    handleDeleteRow id s = some s := by
  unfold handleDeleteRow
  simp only [hU, hitems, Option.getD_none, List.append_nil]
  rw [setVal_lookup_eq _ hU, eraseKey_lookup_none _ hitems]
  have hfil : s.rows.filter (fun r => r.id ≠ id) = s.rows := by
    apply List.filter_eq_self.mpr
    intro r hr
    simp only [decide_eq_true_eq]
    intro hcontra
    exact hrows (hcontra ▸ List.mem_map_of_mem TierRowData.id hr)
  rw [hfil]

theorem deleteTier_unknown_noop_witness :
    handleDeleteRow "Z" initState = some initState :=
  @deleteTier_unknown_noop initState "Z" (by decide) rfl [] rfl

/-- C3 counterexample: after loading a snapshot whose `savedItems` lacks the
UNRANKED key, importing images and deleting a tier do not treat the missing
container as empty — both throw (spread of `undefined`). -/
theorem missing_unranked_cex :
    handleImageUpload [⟨"i1", "d1"⟩] ⟨DEFAULT_ROWS, [("S", [])]⟩ = none ∧
    handleDeleteRow "S" ⟨DEFAULT_ROWS, [("S", [])]⟩ = none :=
  ⟨rfl, rfl⟩

/-- C3 (amended): a missing row-container key is indeed treated as an empty
sequence by tier deletion, by image import (which never reads row keys) and
by rendering; only a missing UNRANKED key makes import and delete fail. -/
theorem missing_row_container_amended {s : AppState} {k : String} {us : List TierImage}
    (hU : lookup s.items UNRANKED_ID = some us) (hk : lookup s.items k = none)
    (imgs : List TierImage) :
    handleDeleteRow k s = some ⟨s.rows.filter (fun r => r.id ≠ k), s.items⟩ ∧
    handleImageUpload imgs s =
      some { s with items := (setVal s.items UNRANKED_ID (us ++ imgs)) } ∧
    renderedItems s k = [] := by
  refine ⟨?_, ?_, ?_⟩
  · unfold handleDeleteRow
    simp only [hU, hk, Option.getD_none, List.append_nil]
    rw [setVal_lookup_eq _ hU, eraseKey_lookup_none _ hk]
  · unfold handleImageUpload
    simp only [hU]
  · unfold renderedItems
    rw [hk]
    rfl

theorem missing_row_container_amended_witness :
    handleDeleteRow "S" ⟨DEFAULT_ROWS, [(UNRANKED_ID, [])]⟩ =
      some ⟨[⟨"A", "A", "#ffbf7f"⟩, ⟨"B", "B", "#ffff7f"⟩, ⟨"C", "C", "#7fff7f"⟩,
             ⟨"D", "D", "#7fbfff"⟩], [(UNRANKED_ID, [])]⟩ :=
  (@missing_row_container_amended ⟨DEFAULT_ROWS, [(UNRANKED_ID, [])]⟩ "S" [] rfl rfl []).1

/-- C4 counterexample: a document whose two top-level fields are present but
of entirely the wrong shape (a string and a number instead of a sequence
and a mapping) is accepted by the load validation, not rejected. -/
theorem decode_no_shape_validation_cex :
    decodeSnapshot (Json.obj [(KEY_SAVED_ROWS, Json.str "x"), (KEY_SAVED_ITEMS, Json.num 3)]) =
      some (Json.str "x", Json.num 3) ∧
    decodeSnapshot (Json.obj [(KEY_SAVED_ROWS, Json.str "x"), (KEY_SAVED_ITEMS, Json.num 3)]) ≠
      none :=
  ⟨rfl, fun hcontra => Option.noConfusion hcontra⟩

/-- C4 (amended): the load validation is truthiness-only: decode fails
exactly when the document, or either top-level field, is absent or falsy —
no shape validation is performed — and on any failure the in-memory state
is left untouched. -/
theorem decode_truthiness_only (doc : Json) (cur : Json × Json) :
    (decodeSnapshot doc = none ↔
      (jsTruthy doc = false ∨ fieldTruthy doc KEY_SAVED_ROWS = false ∨
       fieldTruthy doc KEY_SAVED_ITEMS = false)) ∧
    (decodeSnapshot doc = none → applyUpload doc cur = cur) := by
  constructor
  · unfold decodeSnapshot fieldTruthy
    by_cases hd : jsTruthy doc
    · rcases h1 : jsGet doc KEY_SAVED_ROWS with _ | r <;>
        rcases h2 : jsGet doc KEY_SAVED_ITEMS with _ | i <;>
          simp [hd, h1, h2] <;>
            by_cases hr : jsTruthy r <;> by_cases hi : jsTruthy i <;> simp [hr, hi]
    · simp [hd]
  · intro h
    unfold applyUpload
    rw [h]

theorem decode_truthiness_only_witness :
    applyUpload Json.null (Json.arr [], Json.obj []) = (Json.arr [], Json.obj []) :=
  (decode_truthiness_only Json.null (Json.arr [], Json.obj [])).2 rfl

theorem decodeTier_encodeTier (t : TierRowData) : decodeTier (encodeTier t) = some t := rfl

theorem decodeImage_encodeImage (it : TierImage) : decodeImage (encodeImage it) = some it := rfl

theorem decodeTierList_map (rows : List TierRowData) :
    decodeTierList (rows.map encodeTier) = some rows := by
  induction rows with
  | nil => rfl
  | cons r t ih => simp [decodeTierList, decodeTier_encodeTier, ih]

theorem decodeImageList_map (l : List TierImage) :
    decodeImageList (l.map encodeImage) = some l := by
  induction l with
  | nil => rfl
  | cons it t ih => simp [decodeImageList, decodeImage_encodeImage, ih]

theorem decodeStoreEntries_map (items : Store) :
    decodeStoreEntries (items.map (fun kv => (kv.1, Json.arr (kv.2.map encodeImage)))) =
      some items := by
  induction items with
  | nil => rfl
  | cons hd t ih =>
    obtain ⟨k, v⟩ := hd
    simp [decodeStoreEntries, decodeImagesField, ih, decodeImageList_map]

/-- C9: Decoding the encoded snapshot reproduces the Tier Registry and the
Partition Store exactly — same ids, order, labels, colors, container keys,
item ids, payloads and item order. -/
theorem decode_encode_roundtrip (rows : List TierRowData) (items : Store) :
    decodeTyped (encodeSnapshot rows items) = some (rows, items) := by
  have h1 : decodeSnapshot (encodeSnapshot rows items) =
      some (Json.arr (rows.map encodeTier),
            Json.obj (items.map (fun kv => (kv.1, Json.arr (kv.2.map encodeImage))))) := rfl
  unfold decodeTyped
  rw [h1]
  simp only [decodeRows, decodeItems, decodeTierList_map, decodeStoreEntries_map]
